import Mathlib

/-!
Shallow embedding of the filesystem MCP server
(`src/servers/filesystem/server.py`).

Paths are modelled as lists of components (the `parts` of a resolved
`pathlib.Path`, without the leading root component).  The filesystem is a
finite map from paths to nodes, together with an oracle `resolve` standing
for `Path.resolve()` (symlink and `..` resolution, which depends on the
ambient filesystem) and a `home` directory for `expanduser`.

String helpers (`pySuffix`, `pySplitlines`, `pyLower`, fnmatch-style glob
matching) model the corresponding Python primitives on ASCII text; exotic
Unicode line separators, locale case folding and fnmatch character classes
(unused by this server's configuration) are outside the model.
-/

/-- A resolved filesystem path: the list of its components. -/
abbrev FsPath := List String

/-- Splitting a character list on `/` (the accumulator holds the current
component reversed). -/
def splitSlashAux : List Char → List Char → List String
  | [], acc => [String.mk acc.reverse]
  | '/' :: cs, acc => String.mk acc.reverse :: splitSlashAux cs []
  | c :: cs, acc => splitSlashAux cs (c :: acc)

/-- Splitting a string on the path separator. -/
def splitSlash (s : String) : List String :=
  splitSlashAux s.data []

/-- Parsing of a path string into components, as `pathlib.PurePath` does:
split on the separator, dropping empty components and `.`. -/
def parsePath (s : String) : FsPath :=
  (splitSlash s).filter (fun c => c ≠ "" && c ≠ ".")

/-- Rendering of an absolute path back to its string form (`str(path)`). -/
def pathToString (p : FsPath) : String :=
  "/" ++ String.intercalate "/" p

/-- Final component of a path (`path.name`); empty for the root. -/
def lastName (p : FsPath) : String :=
  p.getLast?.getD ""

/-- Python `PurePath.suffix`: the last dot-suffix of the final component,
empty when the name has no dot, starts with its only dot, or ends in a dot. -/
def pySuffix (name : String) : String :=
  let cs := name.data
  let tail := cs.reverse.takeWhile (fun c => c ≠ '.')
  if tail.length == cs.length then ""
  else
    let i := cs.length - tail.length - 1
    if 0 < i && i < cs.length - 1 then String.mk ('.' :: tail.reverse) else ""

/-- Python `str.lower`, restricted to ASCII case mapping. -/
def pyLower (s : String) : String :=
  String.mk (s.data.map Char.toLower)

/-- Python `str.strip()`: leading and trailing whitespace removed
(ASCII whitespace). -/
def pyStrip (s : String) : String :=
  String.mk (((s.data.dropWhile Char.isWhitespace).reverse.dropWhile
    Char.isWhitespace).reverse)

/-- Python slicing `s[:n]`: the first `n` characters. -/
def pyTake (s : String) (n : Nat) : String :=
  String.mk (s.data.take n)

/-- Python `str.splitlines` on `\n`, `\r\n` and `\r` boundaries
(accumulator holds the current line reversed). -/
def splitlinesAux : List Char → List Char → List String
  | [], [] => []
  | [], acc => [String.mk acc.reverse]
  | '\r' :: '\n' :: cs, acc => String.mk acc.reverse :: splitlinesAux cs []
  | '\n' :: cs, acc => String.mk acc.reverse :: splitlinesAux cs []
  | '\r' :: cs, acc => String.mk acc.reverse :: splitlinesAux cs []
  | c :: cs, acc => splitlinesAux cs (c :: acc)

/-- Python `content.splitlines()`. -/
def pySplitlines (s : String) : List String :=
  splitlinesAux s.data []

/-- Contiguous-subsequence test on lists (substring containment once the
strings are viewed as character lists). -/
def listContains (needle hay : List Char) : Bool :=
  hay.tails.any (fun t => needle.isPrefixOf t)

/-- Case-insensitive substring test: Python `needle.lower() in hay.lower()`. -/
def containsCI (needle hay : String) : Bool :=
  listContains (pyLower needle).data (pyLower hay).data

/-- Shell-style glob matching of `fnmatch.fnmatch`: `*` matches any
(possibly empty) sequence of characters, including the path separator,
and `?` matches exactly one character.  Character classes are not used by
this server's patterns and are not modelled. -/
def globMatch : List Char → List Char → Bool
  | [], cs => cs.isEmpty
  | '*' :: ps, cs => cs.tails.any (fun t => globMatch ps t)
  | '?' :: ps, cs =>
      match cs with
      | [] => false
      | _ :: cs => globMatch ps cs
  | p :: ps, cs =>
      match cs with
      | [] => false
      | c :: cs => p == c && globMatch ps cs

/-- `fnmatch.fnmatch(s, pattern)` (POSIX, where `normcase` is the identity). -/
def fnmatchStr (pattern s : String) : Bool :=
  globMatch pattern.data s.data

/-- A filesystem node: a regular file with decoded text content and stat
size, or a directory. -/
inductive FsNode where
  | file (content : String) (size : Nat)
  | dir
deriving DecidableEq, Repr

/-- The server configuration (`config.yaml` keys used by the code). -/
structure Config where
  allowed_directories : List String
  ignore_patterns : List String
  supported_extensions : List String
deriving DecidableEq, Repr

/-- A filesystem state: finite listing of existing paths with their nodes,
a resolution oracle for `Path.resolve()`, the home directory for
`expanduser`, and stat oracles for directory size and modification time. -/
structure FS where
  entries : List (FsPath × FsNode)
  resolve : FsPath → FsPath
  home : FsPath
  dirSize : FsPath → Nat
  mtime : FsPath → Nat

/-- Node stored at a path, if any (`None` means the path does not exist). -/
def nodeOf (fs : FS) (p : FsPath) : Option FsNode :=
  (fs.entries.find? (fun e => e.1 == p)).map (·.2)

/-- Python `path.exists()`. -/
def pathExists (fs : FS) (p : FsPath) : Bool :=
  (nodeOf fs p).isSome

/-- Python `path.is_file()`. -/
def pathIsFile (fs : FS) (p : FsPath) : Bool :=
  match nodeOf fs p with
  | some (.file _ _) => true
  | _ => false

/-- Python `path.is_dir()`. -/
def pathIsDir (fs : FS) (p : FsPath) : Bool :=
  match nodeOf fs p with
  | some .dir => true
  | _ => false

/-- Content of the file at a path (used only after an `is_file` check,
like `path.read_text(encoding="utf-8", errors="replace")`). -/
def contentOf (fs : FS) (p : FsPath) : String :=
  match nodeOf fs p with
  | some (.file c _) => c
  | _ => ""

/-- Python `path.stat().st_size`. -/
def statSize (fs : FS) (p : FsPath) : Nat :=
  match nodeOf fs p with
  | some (.file _ sz) => sz
  | some .dir => fs.dirSize p
  | none => 0

/-- Python `Path.expanduser()`: a leading `~` component becomes the home
directory. -/
def expanduser (fs : FS) (p : FsPath) : FsPath :=
  match p with
  | "~" :: rest => fs.home ++ rest
  | _ => p

/-- `Path(s).expanduser().resolve()`, the resolution performed at the top
of every tool. -/
def resolveUserPath (fs : FS) (s : String) : FsPath :=
  fs.resolve (expanduser fs (parsePath s))

/-- `get_allowed_directories`: each configured directory string is expanded
and resolved; only those that currently exist and are directories are kept,
in configuration order. -/
def get_allowed_directories (fs : FS) (cfg : Config) : List FsPath :=
  cfg.allowed_directories.filterMap (fun d =>
    let p := resolveUserPath fs d
    if pathExists fs p && pathIsDir fs p then some p else none)

/-- `is_allowed_path`: resolve the path, then test whether it equals an
allowed directory or `is_relative_to` one (component-wise prefix). -/
def is_allowed_path (fs : FS) (cfg : Config) (p : FsPath) : Bool :=
  let resolved := fs.resolve p
  (get_allowed_directories fs cfg).any (fun allowed =>
    resolved == allowed || allowed.isPrefixOf resolved)

/-- `should_ignore`: the path's string form is matched against every
configured ignore pattern with `fnmatch`. -/
def should_ignore (cfg : Config) (p : FsPath) : Bool :=
  cfg.ignore_patterns.any (fun pat => fnmatchStr pat (pathToString p))

/-- `is_supported_file`: the lower-cased suffix is in the configured
extension list. -/
def is_supported_file (cfg : Config) (p : FsPath) : Bool :=
  cfg.supported_extensions.contains (pyLower (pySuffix (lastName p)))

/-- `get_mime_type`: fixed extension-to-MIME table with `text/plain`
fallback. -/
def get_mime_type (p : FsPath) : String :=
  let s := pyLower (pySuffix (lastName p))
  if s = ".py" then "text/x-python"
  else if s = ".md" then "text/markdown"
  else if s = ".txt" then "text/plain"
  else if s = ".js" then "text/javascript"
  else if s = ".ts" then "text/typescript"
  else if s = ".json" then "application/json"
  else if s = ".yaml" then "text/yaml"
  else if s = ".yml" then "text/yaml"
  else if s = ".html" then "text/html"
  else if s = ".css" then "text/css"
  else if s = ".sh" then "text/x-shellscript"
  else if s = ".toml" then "text/x-toml"
  else if s = ".rst" then "text/x-rst"
  else if s = ".ini" then "text/plain"
  else if s = ".cfg" then "text/plain"
  else "text/plain"

/-- Error kinds raised by the operations (§7 taxonomy: the two
access-denied messages are `ValueError("Access denied: ...")` in the
source). -/
inductive FsError where
  | accessDeniedNotAllowed
  | notFound
  | notAFile
  | notADirectory
  | accessDeniedIgnored
  | unsupportedType
deriving DecidableEq, Repr

/-- Decidable equality of operation outcomes (for concrete runs). -/
instance {ε α : Type} [DecidableEq ε] [DecidableEq α] :
    DecidableEq (Except ε α) := fun a b =>
  match a, b with
  | .ok x, .ok y =>
      if h : x = y then .isTrue (by rw [h]) else .isFalse (by simp [h])
  | .error x, .error y =>
      if h : x = y then .isTrue (by rw [h]) else .isFalse (by simp [h])
  | .ok _, .error _ => .isFalse (by simp)
  | .error _, .ok _ => .isFalse (by simp)

/-- Result record of the `read_file` tool. -/
structure ReadResult where
  path : FsPath
  name : String
  content : String
  size : Nat
  lines : Nat
  extension : String
  mimeType : String
deriving DecidableEq, Repr

/-- Kind tag of a directory-listing entry (`"file"` / `"directory"`). -/
inductive EntryKind where
  | file
  | dir
deriving DecidableEq, Repr

/-- One record produced by `list_directory` (paths kept in component form;
the source serializes them with `str`). -/
structure FsEntry where
  name : String
  path : FsPath
  relativePath : FsPath
  kind : EntryKind
  size : Option Nat
  extension : Option String
  mimeType : Option String
deriving DecidableEq, Repr

/-- One record produced by `search_files`: `matches` is present exactly
when a content query was supplied, `size` exactly when it was not. -/
structure SearchResult where
  path : FsPath
  name : String
  extension : String
  size : Option Nat
  matchLines : Option (List (Nat × String))
deriving DecidableEq, Repr

/-- Result record of `get_file_info`. -/
structure FileInfo where
  path : FsPath
  name : String
  extension : String
  size : Nat
  isFile : Bool
  isDirectory : Bool
  mimeType : Option String
  isSupported : Option Bool
  modifiedTime : Nat
deriving DecidableEq, Repr

/-- The `read_file` tool: authorization, existence, kind, ignore and
extension checks in source order, then the content record. -/
def read_file (fs : FS) (cfg : Config) (file_path : String) :
    Except FsError ReadResult :=
  let path := resolveUserPath fs file_path
  if ¬ is_allowed_path fs cfg path then .error .accessDeniedNotAllowed
  else if ¬ pathExists fs path then .error .notFound
  else if ¬ pathIsFile fs path then .error .notAFile
  else if should_ignore cfg path then .error .accessDeniedIgnored
  else if ¬ is_supported_file cfg path then .error .unsupportedType
  else
    let content := contentOf fs path
    .ok ⟨path, lastName path, content, statSize fs path,
         (pySplitlines content).length, pySuffix (lastName path),
         get_mime_type path⟩

/-- The `file:///{path}` resource: same checks as `read_file` except that
the argument gets a leading `/` (no `expanduser`) and there is no
supported-extension check. -/
def read_file_resource (fs : FS) (cfg : Config) (path : String) :
    Except FsError String :=
  let fp := fs.resolve (parsePath ("/" ++ path))
  if ¬ is_allowed_path fs cfg fp then .error .accessDeniedNotAllowed
  else if ¬ pathExists fs fp then .error .notFound
  else if ¬ pathIsFile fs fp then .error .notAFile
  else if should_ignore cfg fp then .error .accessDeniedIgnored
  else .ok (contentOf fs fp)

/-- The `get_file_info` tool. -/
def get_file_info (fs : FS) (cfg : Config) (file_path : String) :
    Except FsError FileInfo :=
  let path := resolveUserPath fs file_path
  if ¬ is_allowed_path fs cfg path then .error .accessDeniedNotAllowed
  else if ¬ pathExists fs path then .error .notFound
  else
    .ok ⟨path, lastName path, pySuffix (lastName path), statSize fs path,
         pathIsFile fs path, pathIsDir fs path,
         if pathIsFile fs path then some (get_mime_type path) else none,
         if pathIsFile fs path then some (is_supported_file cfg path) else none,
         fs.mtime path⟩

/-- The `list_allowed_directories` tool: each kept directory with its
(re-checked) existence flag. -/
def list_allowed_directories (fs : FS) (cfg : Config) :
    List (FsPath × Bool) :=
  (get_allowed_directories fs cfg).map (fun d => (d, pathExists fs d))

/-- Lexicographic comparison of character lists by code point (Python's
string ordering). -/
def charsLe : List Char → List Char → Bool
  | [], _ => true
  | _ :: _, [] => false
  | c :: cs, d :: ds =>
      if c.toNat < d.toNat then true
      else if d.toNat < c.toNat then false
      else charsLe cs ds

/-- Python `s <= t` on strings. -/
def strLe (s t : String) : Bool :=
  charsLe s.data t.data

/-- Insertion of a string into a sorted list (helper for the
lexicographically sorted iteration of `sorted(path.iterdir())`). -/
def insertStr (s : String) : List String → List String
  | [] => [s]
  | t :: ts => if strLe s t then s :: t :: ts else t :: insertStr s ts

/-- Insertion sort on strings. -/
def sortStrings : List String → List String
  | [] => []
  | s :: ss => insertStr s (sortStrings ss)

/-- Names of the immediate children of a directory, deduplicated and in
sorted order (`sorted(path.iterdir())` yields each child once, ordered by
name among siblings). -/
def childNames (fs : FS) (p : FsPath) : List String :=
  sortStrings ((fs.entries.filterMap (fun e =>
    if p.isPrefixOf e.1 && e.1.length == p.length + 1
    then (e.1.drop p.length).head? else none)).dedup)

/-- Body of the recursive closure `scan_directory` inside
`list_directory`, phrased structurally on the remaining depth budget
`fuel = max_depth + 1 - current_depth` (the source guards each call with
`current_depth > max_depth`, which is exactly `fuel = 0`).  `dirPath` is
the listing root (for `relative_to`), `path` the directory being
scanned.  Permission errors (swallowed per subtree in the source) are
outside the model. -/
def scanGo (fs : FS) (cfg : Config) (recursive : Bool) (dirPath : FsPath) :
    Nat → FsPath → List FsEntry
  | 0, _ => []
  | fuel + 1, path =>
      (childNames fs path).flatMap (fun n =>
        let item := path ++ [n]
        if should_ignore cfg item then []
        else
          let rel := item.drop dirPath.length
          match nodeOf fs item with
          | some (.file _ sz) =>
              if is_supported_file cfg item then
                [⟨n, item, rel, .file, some sz, some (pySuffix n),
                  some (get_mime_type item)⟩]
              else []
          | some .dir =>
              if recursive then
                ⟨n, item, rel, .dir, none, none, none⟩ ::
                  scanGo fs cfg recursive dirPath fuel item
              else [⟨n, item, rel, .dir, none, none, none⟩]
          | none => [])

/-- `scan_directory(path, current_depth)` of the source. -/
def scan_directory (fs : FS) (cfg : Config) (recursive : Bool)
    (max_depth : Nat) (dirPath path : FsPath) (current_depth : Nat) :
    List FsEntry :=
  scanGo fs cfg recursive dirPath (max_depth + 1 - current_depth) path

/-- The `list_directory` tool. -/
def list_directory (fs : FS) (cfg : Config) (directory : String)
    (recursive : Bool) (max_depth : Nat) : Except FsError (List FsEntry) :=
  let dir_path := resolveUserPath fs directory
  if ¬ is_allowed_path fs cfg dir_path then .error .accessDeniedNotAllowed
  else if ¬ pathExists fs dir_path then .error .notFound
  else if ¬ pathIsDir fs dir_path then .error .notADirectory
  else .ok (scan_directory fs cfg recursive max_depth dir_path dir_path 0)

/-- Matching of a relative path against the components of a glob pattern,
one `fnmatch` per component. -/
def matchComps : List String → List String → Bool
  | [], [] => true
  | p :: ps, r :: rs => fnmatchStr p r && matchComps ps rs
  | _, _ => false

/-- `search_dir.rglob(pattern)` membership: the pattern (equivalently
`**/pattern`) matches when its components match a suffix of the
candidate's path relative to the search root. -/
def rglobMatches (pattern : String) (rel : FsPath) : Bool :=
  let pcs := (splitSlash pattern).filter (fun c => c ≠ "")
  pcs ≠ [] && rel.tails.any (fun t => matchComps pcs t)

/-- Candidate paths yielded by `search_dir.rglob(pattern)`: the proper
descendants of the root whose relative path matches, in the traversal
order fixed by the `entries` listing. -/
def rglobCandidates (fs : FS) (root : FsPath) (pattern : String) :
    List FsPath :=
  fs.entries.filterMap (fun e =>
    if root.isPrefixOf e.1 && decide (root.length < e.1.length)
       && rglobMatches pattern (e.1.drop root.length)
    then some e.1 else none)

/-- Up to five matching lines of a content search: Python enumerates
`splitlines` from 1, keeps lines containing the query case-insensitively,
stops after 5, and records `line.strip()[:200]`. -/
def collectMatches (cs content : String) : List (Nat × String) :=
  (((pySplitlines content).enum.filter (fun il => containsCI cs il.2)).take 5).map
    (fun il => (il.1 + 1, pyTake (pyStrip il.2) 200))

/-- Per-candidate body of the `search_files` loop: `is_file`, ignore and
extension filters, then the content filter when a query was supplied.
Returns the result record to append, if any. -/
def processCandidate (fs : FS) (cfg : Config)
    (content_search : Option String) (q : FsPath) : Option SearchResult :=
  match nodeOf fs q with
  | some (.file content sz) =>
      if should_ignore cfg q then none
      else if ¬ is_supported_file cfg q then none
      else
        match content_search with
        | some cs =>
            if containsCI cs content then
              some ⟨q, lastName q, pySuffix (lastName q), none,
                    some (collectMatches cs content)⟩
            else none
        | none =>
            some ⟨q, lastName q, pySuffix (lastName q), some sz, none⟩
  | _ => none

/-- The inner candidate loop of `search_files`: before each candidate the
result count is checked against `max_results` and the loop breaks once it
is reached. -/
def searchFold (k : Nat) (f : FsPath → Option SearchResult) :
    List FsPath → List SearchResult → List SearchResult
  | [], acc => acc
  | q :: qs, acc =>
      if k ≤ acc.length then acc
      else
        match f q with
        | some r => searchFold k f qs (acc ++ [r])
        | none => searchFold k f qs acc

/-- The outer loop of `search_files` over the search roots: non-existing
roots are skipped, and the loop breaks once `max_results` results have
accumulated. -/
def searchRoots (fs : FS) (cfg : Config) (pattern : String)
    (content_search : Option String) (k : Nat) :
    List FsPath → List SearchResult → List SearchResult
  | [], acc => acc
  | d :: ds, acc =>
      if ¬ pathExists fs d then
        searchRoots fs cfg pattern content_search k ds acc
      else
        let acc2 := searchFold k (processCandidate fs cfg content_search)
          (rglobCandidates fs d pattern) acc
        if k ≤ acc2.length then acc2
        else searchRoots fs cfg pattern content_search k ds acc2

/-- The `search_files` tool: the explicit directory must be allowed (the
only error), otherwise all allowed roots are searched in configuration
order. -/
def search_files (fs : FS) (cfg : Config) (pattern : String)
    (directory : Option String) (content_search : Option String)
    (max_results : Nat) : Except FsError (List SearchResult) :=
  match directory with
  | some d =>
      let dp := resolveUserPath fs d
      if ¬ is_allowed_path fs cfg dp then .error .accessDeniedNotAllowed
      else .ok (searchRoots fs cfg pattern content_search max_results [dp] [])
  | none =>
      .ok (searchRoots fs cfg pattern content_search max_results
        (get_allowed_directories fs cfg) [])

/-!
Concrete fixtures used by witnesses and counterexamples (Scenario A of
the spec, plus variants).
-/

/-- Scenario A filesystem: `/tmp/root` with a supported file, a
subdirectory, an ignored directory and an unsupported file. -/
def fsA : FS where
  entries := [
    (["tmp"], .dir),
    (["tmp", "root"], .dir),
    (["tmp", "root", "a.txt"], .file "hello" 5),
    (["tmp", "root", "sub"], .dir),
    (["tmp", "root", "sub", "b.txt"], .file "world" 5),
    (["tmp", "root", "ignored"], .dir),
    (["tmp", "root", "ignored", "b.txt"], .file "secret" 6),
    (["tmp", "root", "c.xyz"], .file "x" 1)]
  resolve := id
  home := []
  dirSize := fun _ => 0
  mtime := fun _ => 0

/-- Scenario A configuration. -/
def cfgA : Config where
  allowed_directories := ["/tmp/root"]
  ignore_patterns := ["*/ignored/*"]
  supported_extensions := [".txt"]

/-- Scenario A configuration with an extra configured directory that does
not exist on `fsA`. -/
def cfgTwo : Config where
  allowed_directories := ["/tmp/root", "/nope"]
  ignore_patterns := ["*/ignored/*"]
  supported_extensions := [".txt"]

/-- Filesystem with sibling directories `/allowed` and `/allowed-evil`
whose names share a string prefix. -/
def fsEvil : FS where
  entries := [
    (["allowed"], .dir),
    (["allowed", "docs"], .dir),
    (["allowed", "docs", "x.txt"], .file "hi" 2),
    (["allowed-evil"], .dir),
    (["allowed-evil", "y.txt"], .file "z" 1)]
  resolve := id
  home := []
  dirSize := fun _ => 0
  mtime := fun _ => 0

/-- Configuration allowing only `/allowed`. -/
def cfgEvil : Config where
  allowed_directories := ["/allowed"]
  ignore_patterns := []
  supported_extensions := [".txt"]

/-- Filesystem holding a file whose content is the two-line text `a`,
`b`. -/
def fsN : FS where
  entries := [
    (["r"], .dir),
    (["r", "a.txt"], .file "a\nb" 3)]
  resolve := id
  home := []
  dirSize := fun _ => 0
  mtime := fun _ => 0

/-- Configuration allowing only `/r`, with no ignore patterns. -/
def cfgN : Config where
  allowed_directories := ["/r"]
  ignore_patterns := []
  supported_extensions := [".txt"]

/-!
Helper lemmas shared by several claims.
-/

/-- Membership in the kept allowed-directory list forces existence and
directoryness. -/
theorem mem_get_allowed_directories {fs : FS} {cfg : Config} {p : FsPath}
    (h : p ∈ get_allowed_directories fs cfg) :
    pathExists fs p = true ∧ pathIsDir fs p = true := by
  simp only [get_allowed_directories, List.mem_filterMap] at h
  obtain ⟨d, _, hd⟩ := h
  by_cases hc : pathExists fs (resolveUserPath fs d) = true ∧
      pathIsDir fs (resolveUserPath fs d) = true
  · simp only [hc.1, hc.2, Bool.and_self, if_true, Option.some.injEq] at hd
    exact hd ▸ hc
  · rw [if_neg (by intro hb; exact hc (by constructor <;> simp_all [Bool.and_eq_true]))] at hd
    exact absurd hd (by simp)

/-!
Claim C1.
-/

/-- C1: for every path argument that, after resolution, is not contained
in any allowed root, `read_file`, `list_directory`, `get_file_info`, the
`read_file_resource` resource and `search_files` with an explicit
directory all fail with the access-denied error; no existence check is
consulted, so a disallowed path never produces a not-found error even
when it does not exist. -/
theorem claim1_access_denied_first (fs : FS) (cfg : Config) (s t : String)
    (hs : is_allowed_path fs cfg (resolveUserPath fs s) = false)
    (ht : is_allowed_path fs cfg (fs.resolve (parsePath ("/" ++ t))) = false) :
    read_file fs cfg s = .error .accessDeniedNotAllowed ∧
    (∀ recursive max_depth,
      list_directory fs cfg s recursive max_depth =
        .error .accessDeniedNotAllowed) ∧
    get_file_info fs cfg s = .error .accessDeniedNotAllowed ∧
    read_file_resource fs cfg t = .error .accessDeniedNotAllowed ∧
    (∀ pattern content_search max_results,
      search_files fs cfg pattern (some s) content_search max_results =
        .error .accessDeniedNotAllowed) := by
  refine ⟨?_, ?_, ?_, ?_, ?_⟩ <;>
    simp [read_file, list_directory, get_file_info, read_file_resource,
      search_files, hs, ht]

/-- Concrete run of C1: `/etc/passwd` does not exist on the fixture and is
outside the allowed root, and every operation reports access denied, not
not-found. -/
theorem claim1_witness :
    read_file fsA cfgA "/etc/passwd" = .error .accessDeniedNotAllowed ∧
    list_directory fsA cfgA "/etc/passwd" true 3 =
      .error .accessDeniedNotAllowed ∧
    search_files fsA cfgA "*.txt" (some "/etc/passwd") none 50 =
      .error .accessDeniedNotAllowed := by
  obtain ⟨h1, h2, _, _, h5⟩ :=
    claim1_access_denied_first fsA cfgA "/etc/passwd" "etc/passwd"
      (by decide) (by decide)
  exact ⟨h1, h2 true 3, h5 "*.txt" none 50⟩

/-!
Claim C2.
-/

/-- C2: `is_allowed_path` holds exactly when the resolved path equals an
allowed root or extends one by whole path components; a path whose string
form merely extends a root's string without a separator, such as
`/allowed-evil` against root `/allowed`, is not allowed even though both
exist. -/
theorem claim2_containment_not_string_prefix :
    (∀ (fs : FS) (cfg : Config) (p : FsPath),
       is_allowed_path fs cfg p = true ↔
         ∃ r ∈ get_allowed_directories fs cfg,
           fs.resolve p = r ∨ r <+: fs.resolve p) ∧
    is_allowed_path fsEvil cfgEvil (parsePath "/allowed-evil") = false ∧
    is_allowed_path fsEvil cfgEvil (parsePath "/allowed-evil/y.txt") = false ∧
    is_allowed_path fsEvil cfgEvil (parsePath "/allowed") = true ∧
    is_allowed_path fsEvil cfgEvil (parsePath "/allowed/docs/x.txt") = true := by
  refine ⟨fun fs cfg p => ?_, by decide, by decide, by decide, by decide⟩
  simp [is_allowed_path, List.any_eq_true, List.isPrefixOf_iff_prefix,
    beq_iff_eq]

/-!
Claim C9.
-/

/-- C9: the resource-style read enforces the allow-list, existence,
is-a-file and ignore checks but never the supported-extension list: an
allowed, existing, non-ignored regular file with an unsupported extension
is served by `read_file_resource` while the `read_file` tool rejects the
same resolved path with the unsupported-type error. -/
theorem claim9_resource_skips_extension_check (fs : FS) (cfg : Config)
    (t s : String) (c : String) (sz : Nat)
    (hres : fs.resolve (parsePath ("/" ++ t)) = resolveUserPath fs s)
    (hallow : is_allowed_path fs cfg (resolveUserPath fs s) = true)
    (hnode : nodeOf fs (resolveUserPath fs s) = some (.file c sz))
    (hig : should_ignore cfg (resolveUserPath fs s) = false)
    (hsup : is_supported_file cfg (resolveUserPath fs s) = false) :
    read_file_resource fs cfg t = .ok c ∧
    read_file fs cfg s = .error .unsupportedType := by
  constructor
  · simp [read_file_resource, hres, hallow, pathExists, pathIsFile,
      contentOf, hnode, hig]
  · simp [read_file, hallow, pathExists, pathIsFile, hnode, hig, hsup]

/-- Concrete run of C9 on the fixture: `.xyz` is not a supported
extension, yet the resource serves the file while the tool refuses it. -/
theorem claim9_witness :
    read_file_resource fsA cfgA "tmp/root/c.xyz" = .ok "x" ∧
    read_file fsA cfgA "/tmp/root/c.xyz" = .error .unsupportedType :=
  claim9_resource_skips_extension_check fsA cfgA "tmp/root/c.xyz"
    "/tmp/root/c.xyz" "x" 1 (by decide) (by decide) (by decide)
    (by decide) (by decide)

/-!
Claim C10.
-/

/-- C10: the kept allowed-directory list contains only configured
directories that exist and are directories, so every record of
`list_allowed_directories` carries `exists = true`, and a configured
directory that does not exist appears neither in the listing nor among
the roots that authorize access. -/
theorem claim10_only_existing_roots (fs : FS) (cfg : Config) :
    (∀ rec ∈ list_allowed_directories fs cfg, rec.2 = true) ∧
    (∀ d ∈ cfg.allowed_directories,
       pathExists fs (resolveUserPath fs d) = false →
         resolveUserPath fs d ∉ get_allowed_directories fs cfg ∧
         ∀ rec ∈ list_allowed_directories fs cfg,
           rec.1 ≠ resolveUserPath fs d) := by
  constructor
  · intro rec hrec
    simp only [list_allowed_directories, List.mem_map] at hrec
    obtain ⟨p, hp, hrec⟩ := hrec
    rw [← hrec]
    exact (mem_get_allowed_directories hp).1
  · intro d _ hnex
    constructor
    · intro hmem
      rw [(mem_get_allowed_directories hmem).1] at hnex
      exact absurd hnex (by simp)
    · intro rec hrec heq
      simp only [list_allowed_directories, List.mem_map] at hrec
      obtain ⟨p, hp, hrec⟩ := hrec
      rw [← hrec] at heq
      simp only at heq
      rw [heq] at hp
      rw [(mem_get_allowed_directories hp).1] at hnex
      exact absurd hnex (by simp)

/-- Concrete run of C10: with configured directories `/tmp/root` and the
non-existing `/nope`, the listing shows only `/tmp/root` with
`exists = true`, and `/nope` authorizes nothing. -/
theorem claim10_witness :
    (∀ rec ∈ list_allowed_directories fsA cfgTwo, rec.2 = true) ∧
    resolveUserPath fsA "/nope" ∉ get_allowed_directories fsA cfgTwo :=
  ⟨(claim10_only_existing_roots fsA cfgTwo).1,
   ((claim10_only_existing_roots fsA cfgTwo).2 "/nope" (by decide)
     (by decide)).1⟩

/-!
Helper lemmas about the search loops.
-/

/-- A successful call of the per-candidate body implies the candidate is a
non-ignored supported file, and fixes the shape of the produced record. -/
theorem processCandidate_spec {fs : FS} {cfg : Config} {csq : Option String}
    {q : FsPath} {r : SearchResult}
    (h : processCandidate fs cfg csq q = some r) :
    r.path = q ∧ should_ignore cfg q = false ∧
    is_supported_file cfg q = true ∧
    ∃ c sz, nodeOf fs q = some (.file c sz) ∧
      (∀ cs, csq = some cs →
        containsCI cs c = true ∧ r.matchLines = some (collectMatches cs c)) := by
  unfold processCandidate at h
  split at h
  case _ content sz heq =>
    by_cases hig : should_ignore cfg q = true
    · rw [if_pos (by simpa using hig)] at h
      cases h
    · rw [if_neg (by simpa using hig)] at h
      by_cases hsup : is_supported_file cfg q = true
      · rw [if_neg (by simp [hsup])] at h
        cases csq with
        | some cs =>
            simp only at h
            by_cases hci : containsCI cs content = true
            · rw [if_pos hci] at h
              obtain rfl := Option.some.inj h
              exact ⟨rfl, by simpa using hig, hsup, content, sz, heq,
                fun cs2 hcs2 => by
                  obtain rfl := Option.some.inj hcs2
                  exact ⟨hci, rfl⟩⟩
            · rw [if_neg hci] at h
              cases h
        | none =>
            simp only at h
            obtain rfl := Option.some.inj h
            exact ⟨rfl, by simpa using hig, hsup, content, sz, heq,
              fun cs2 hcs2 => by cases hcs2⟩
      · rw [if_pos (by simpa using hsup)] at h
        cases h
  case _ hne =>
    cases h

/-- Every element of `searchFold` comes from the accumulator or from a
candidate accepted by the body. -/
theorem mem_searchFold {k : Nat} {f : FsPath → Option SearchResult} :
    ∀ {qs : List FsPath} {acc : List SearchResult} {r : SearchResult},
      r ∈ searchFold k f qs acc →
        r ∈ acc ∨ ∃ q ∈ qs, f q = some r := by
  intro qs
  induction qs with
  | nil =>
      intro acc r h
      exact Or.inl (by simpa [searchFold] using h)
  | cons q qs ih =>
      intro acc r h
      simp only [searchFold] at h
      by_cases hk : k ≤ acc.length
      · rw [if_pos hk] at h
        exact Or.inl h
      · rw [if_neg hk] at h
        cases hfq : f q with
        | some r2 =>
            rw [hfq] at h
            rcases ih h with hacc | ⟨q2, hq2, hfq2⟩
            · rcases List.mem_append.mp hacc with h1 | h2
              · exact Or.inl h1
              · refine Or.inr ⟨q, List.mem_cons_self q qs, ?_⟩
                rw [hfq]
                simpa using (List.mem_singleton.mp h2) ▸ rfl
            · exact Or.inr ⟨q2, List.mem_cons_of_mem q hq2, hfq2⟩
        | none =>
            rw [hfq] at h
            rcases ih h with hacc | ⟨q2, hq2, hfq2⟩
            · exact Or.inl hacc
            · exact Or.inr ⟨q2, List.mem_cons_of_mem q hq2, hfq2⟩

/-- Every element of `searchRoots` comes from the accumulator or from a
candidate of one of the roots accepted by the body. -/
theorem mem_searchRoots {fs : FS} {cfg : Config} {pat : String}
    {csq : Option String} {k : Nat} :
    ∀ {ds : List FsPath} {acc : List SearchResult} {r : SearchResult},
      r ∈ searchRoots fs cfg pat csq k ds acc →
        r ∈ acc ∨ ∃ d ∈ ds, ∃ q ∈ rglobCandidates fs d pat,
          processCandidate fs cfg csq q = some r := by
  intro ds
  induction ds with
  | nil =>
      intro acc r h
      exact Or.inl (by simpa [searchRoots] using h)
  | cons d ds ih =>
      intro acc r h
      simp only [searchRoots] at h
      by_cases hex : pathExists fs d = true
      · rw [if_neg (by simp [hex])] at h
        have hsplit :
            r ∈ searchFold k (processCandidate fs cfg csq)
                  (rglobCandidates fs d pat) acc ∨
            ∃ d2 ∈ ds, ∃ q ∈ rglobCandidates fs d2 pat,
              processCandidate fs cfg csq q = some r := by
          by_cases hk : k ≤ (searchFold k (processCandidate fs cfg csq)
              (rglobCandidates fs d pat) acc).length
          · rw [if_pos hk] at h
            exact Or.inl h
          · rw [if_neg hk] at h
            rcases ih h with h1 | ⟨d2, hd2, hq⟩
            · exact Or.inl h1
            · exact Or.inr ⟨d2, hd2, hq⟩
        rcases hsplit with h1 | ⟨d2, hd2, q, hq, hpq⟩
        · rcases mem_searchFold h1 with hacc | ⟨q, hq, hpq⟩
          · exact Or.inl hacc
          · exact Or.inr ⟨d, List.mem_cons_self d ds, q, hq, hpq⟩
        · exact Or.inr ⟨d2, List.mem_cons_of_mem d hd2, q, hq, hpq⟩
      · rw [if_pos (by simpa using hex)] at h
        rcases ih h with h1 | ⟨d2, hd2, hq⟩
        · exact Or.inl h1
        · exact Or.inr ⟨d2, List.mem_cons_of_mem d hd2, hq⟩

/-- Every record of a successful `search_files` call was accepted by the
per-candidate body. -/
theorem mem_search_files {fs : FS} {cfg : Config} {pat : String}
    {dir : Option String} {csq : Option String} {k : Nat}
    {rs : List SearchResult} {r : SearchResult}
    (h : search_files fs cfg pat dir csq k = .ok rs) (hr : r ∈ rs) :
    ∃ q, processCandidate fs cfg csq q = some r := by
  unfold search_files at h
  cases dir with
  | some d =>
      simp only at h
      by_cases hal : is_allowed_path fs cfg (resolveUserPath fs d) = true
      · rw [if_neg (by simp [hal])] at h
        obtain rfl := Except.ok.inj h
        rcases mem_searchRoots hr with hacc | ⟨_, _, q, _, hpq⟩
        · cases hacc
        · exact ⟨q, hpq⟩
      · rw [if_pos (by simpa using hal)] at h
        cases h
  | none =>
      simp only at h
      obtain rfl := Except.ok.inj h
      rcases mem_searchRoots hr with hacc | ⟨_, _, q, _, hpq⟩
      · cases hacc
      · exact ⟨q, hpq⟩

/-!
Claim C4.
-/

/-- C4: a path matching a configured ignore pattern is denied by
`read_file` with the ignore-specific access-denied error whenever the
path is authorized, exists and is a file (the situation in which the
claim's other checks would pass), and such a path never appears among
`search_files` results, whatever the query. -/
theorem claim4_ignored_denied_everywhere (fs : FS) (cfg : Config)
    (s : String)
    (hig : should_ignore cfg (resolveUserPath fs s) = true) :
    (is_allowed_path fs cfg (resolveUserPath fs s) = true →
     pathExists fs (resolveUserPath fs s) = true →
     pathIsFile fs (resolveUserPath fs s) = true →
     read_file fs cfg s = .error .accessDeniedIgnored) ∧
    (∀ pat dir csq k rs, search_files fs cfg pat dir csq k = .ok rs →
       ∀ r ∈ rs, r.path ≠ resolveUserPath fs s) := by
  constructor
  · intro hal hex hf
    simp [read_file, hal, hex, hf, hig]
  · intro pat dir csq k rs h r hr heq
    obtain ⟨q, hq⟩ := mem_search_files h hr
    obtain ⟨hpath, hnig, -⟩ := processCandidate_spec hq
    rw [heq] at hpath
    rw [hpath] at hig
    rw [hig] at hnig
    cases hnig

/-- Concrete run of C4 (Scenario B): `/tmp/root/ignored/b.txt` matches
`*/ignored/*`, is inside the allowed root, exists and is a supported
file, yet `read_file` denies it and a `*.txt` search omits it. -/
theorem claim4_witness :
    read_file fsA cfgA "/tmp/root/ignored/b.txt" =
      .error .accessDeniedIgnored ∧
    (∀ r ∈ [(⟨["tmp", "root", "a.txt"], "a.txt", ".txt", some 5, none⟩ :
        SearchResult),
       ⟨["tmp", "root", "sub", "b.txt"], "b.txt", ".txt", some 5, none⟩],
       r.path ≠ resolveUserPath fsA "/tmp/root/ignored/b.txt") := by
  have h := claim4_ignored_denied_everywhere fsA cfgA
    "/tmp/root/ignored/b.txt" (by decide)
  exact ⟨h.1 (by decide) (by decide) (by decide),
    h.2 "*.txt" none none 50 _ (by decide)⟩

/-!
Claim C6.
-/

/-- The inner loop is the identity once the cap is reached. -/
theorem searchFold_stop {k : Nat} {f : FsPath → Option SearchResult}
    {qs : List FsPath} {acc : List SearchResult} (h : k ≤ acc.length) :
    searchFold k f qs acc = acc := by
  cases qs with
  | nil => rfl
  | cons q qs => simp [searchFold, if_pos h]

/-- The inner loop never pushes the result count beyond the cap. -/
theorem searchFold_length {k : Nat} {f : FsPath → Option SearchResult} :
    ∀ {qs : List FsPath} {acc : List SearchResult},
      acc.length ≤ k → (searchFold k f qs acc).length ≤ k := by
  intro qs
  induction qs with
  | nil => intro acc h; simpa [searchFold] using h
  | cons q qs ih =>
      intro acc h
      simp only [searchFold]
      by_cases hk : k ≤ acc.length
      · rw [if_pos hk]; exact h
      · rw [if_neg hk]
        cases f q with
        | some r =>
            simp only
            exact ih (by simp; omega)
        | none => exact ih h

/-- The outer loop is the identity once the cap is reached. -/
theorem searchRoots_stop {fs : FS} {cfg : Config} {pat : String}
    {csq : Option String} {k : Nat} :
    ∀ {ds : List FsPath} {acc : List SearchResult}, k ≤ acc.length →
      searchRoots fs cfg pat csq k ds acc = acc := by
  intro ds
  induction ds with
  | nil => intro acc _; rfl
  | cons d ds ih =>
      intro acc h
      simp only [searchRoots]
      by_cases hex : pathExists fs d = true
      · rw [if_neg (by simp [hex])]
        rw [searchFold_stop h, if_pos h]
      · rw [if_pos (by simpa using hex)]
        exact ih h

/-- The outer loop never pushes the result count beyond the cap. -/
theorem searchRoots_length {fs : FS} {cfg : Config} {pat : String}
    {csq : Option String} {k : Nat} :
    ∀ {ds : List FsPath} {acc : List SearchResult},
      acc.length ≤ k → (searchRoots fs cfg pat csq k ds acc).length ≤ k := by
  intro ds
  induction ds with
  | nil => intro acc h; simpa [searchRoots] using h
  | cons d ds ih =>
      intro acc h
      simp only [searchRoots]
      by_cases hex : pathExists fs d = true
      · rw [if_neg (by simp [hex])]
        by_cases hk : k ≤ (searchFold k (processCandidate fs cfg csq)
            (rglobCandidates fs d pat) acc).length
        · rw [if_pos hk]
          exact searchFold_length h
        · rw [if_neg hk]
          exact ih (searchFold_length h)
      · rw [if_pos (by simpa using hex)]
        exact ih h

/-- C6: `search_files` with `max_results = k` returns at most `k`
results, and once the accumulated results reach `k` both loops return
immediately, so no further candidate (in the current root or any later
root) contributes. -/
theorem claim6_max_results_cap (fs : FS) (cfg : Config) (pat : String)
    (dir : Option String) (csq : Option String) (k : Nat) :
    (∀ rs, search_files fs cfg pat dir csq k = .ok rs → rs.length ≤ k) ∧
    (∀ f qs acc, k ≤ List.length acc → searchFold k f qs acc = acc) ∧
    (∀ ds acc, k ≤ List.length acc →
      searchRoots fs cfg pat csq k ds acc = acc) := by
  refine ⟨?_, fun f qs acc h => searchFold_stop h,
    fun ds acc h => searchRoots_stop h⟩
  intro rs h
  unfold search_files at h
  cases dir with
  | some d =>
      simp only at h
      by_cases hal : is_allowed_path fs cfg (resolveUserPath fs d) = true
      · rw [if_neg (by simp [hal])] at h
        obtain rfl := Except.ok.inj h
        exact searchRoots_length (by simp)
      · rw [if_pos (by simpa using hal)] at h
        cases h
  | none =>
      simp only at h
      obtain rfl := Except.ok.inj h
      exact searchRoots_length (by simp)

/-- Concrete run of C6: the fixture holds two matching files but a cap of
one yields exactly one result. -/
theorem claim6_witness :
    ([(⟨["tmp", "root", "a.txt"], "a.txt", ".txt", some 5, none⟩ :
        SearchResult)]).length ≤ 1 :=
  (claim6_max_results_cap fsA cfgA "*.txt" none none 1).1 _ (by decide)

/-!
Claim C7.
-/

/-- C7: for an allowed, non-ignored, supported file the returned record's
`content` is the literal (decoded) file content, `lines` counts its
newline-delimited lines, `size` is the stat size and the extension and
MIME type come from the file name. -/
theorem claim7_read_file_round_trip (fs : FS) (cfg : Config)
    (s c : String) (sz : Nat)
    (hallow : is_allowed_path fs cfg (resolveUserPath fs s) = true)
    (hnode : nodeOf fs (resolveUserPath fs s) = some (.file c sz))
    (hig : should_ignore cfg (resolveUserPath fs s) = false)
    (hsup : is_supported_file cfg (resolveUserPath fs s) = true) :
    ∃ r, read_file fs cfg s = .ok r ∧ r.content = c ∧
      r.lines = (pySplitlines c).length ∧ r.size = sz ∧
      r.extension = pySuffix (lastName (resolveUserPath fs s)) ∧
      r.mimeType = get_mime_type (resolveUserPath fs s) := by
  refine ⟨⟨resolveUserPath fs s, lastName (resolveUserPath fs s), c, sz,
    (pySplitlines c).length, pySuffix (lastName (resolveUserPath fs s)),
    get_mime_type (resolveUserPath fs s)⟩, ?_, rfl, rfl, rfl, rfl, rfl⟩
  simp [read_file, hallow, pathExists, pathIsFile, contentOf, statSize,
    hnode, hig, hsup]

/-- Concrete run of C7 (Scenario A): reading `/tmp/root/a.txt` holding
`hello` yields content `hello`, size 5, one line, extension `.txt` and
MIME `text/plain`. -/
theorem claim7_witness :
    ∃ r, read_file fsA cfgA "/tmp/root/a.txt" = .ok r ∧
      r.content = "hello" ∧ r.lines = 1 ∧ r.size = 5 ∧
      r.extension = ".txt" ∧ r.mimeType = "text/plain" := by
  obtain ⟨r, h1, h2, h3, h4, h5, h6⟩ :=
    claim7_read_file_round_trip fsA cfgA "/tmp/root/a.txt" "hello" 5
      (by decide) (by decide) (by decide) (by decide)
  refine ⟨r, h1, h2, ?_, h4, ?_, ?_⟩
  · rw [h3]; decide
  · rw [h5]; decide
  · rw [h6]; decide

/-!
Claim C5.
-/

/-- C5 counterexample: with the file `/r/a.txt` holding the two-line
text `a`-newline-`b` and the content query `a`-newline-`b`, the whole
content passes the case-insensitive substring test, yet no single line
contains the query, and the file IS included, with an empty match list —
refuting the claim that a file is included only if at least one of its
lines matched. -/
theorem claim5_counterexample :
    search_files fsN cfgN "*.txt" none (some "a\nb") 50 =
      .ok [⟨["r", "a.txt"], "a.txt", ".txt", none, some []⟩] ∧
    containsCI "a\nb" (contentOf fsN ["r", "a.txt"]) = true ∧
    (pySplitlines (contentOf fsN ["r", "a.txt"])).all
      (fun l => ! containsCI "a\nb" l) = true := by
  refine ⟨by decide, by decide, by decide⟩

/-- A member of the collected match list points to a 1-indexed matching
line whose trimmed 200-character excerpt it carries. -/
theorem mem_collectMatches {cs content : String} {m : Nat × String}
    (h : m ∈ collectMatches cs content) :
    ∃ line, (pySplitlines content)[m.1 - 1]? = some line ∧ 1 ≤ m.1 ∧
      containsCI cs line = true ∧ m.2 = pyTake (pyStrip line) 200 := by
  unfold collectMatches at h
  obtain ⟨⟨i, l⟩, hmem, heq⟩ := List.mem_map.mp h
  have hmem2 := List.mem_of_mem_take hmem
  have hmem3 := List.mem_of_mem_filter hmem2
  have hprop := List.of_mem_filter hmem2
  have hget := List.mem_enum_iff_getElem?.mp hmem3
  refine ⟨l, ?_, ?_, by simpa using hprop, ?_⟩
  · rw [← heq]
    simpa using hget
  · rw [← heq]
    omega
  · rw [← heq]

/-- The collected match list never exceeds five entries. -/
theorem collectMatches_length_le (cs content : String) :
    (collectMatches cs content).length ≤ 5 := by
  unfold collectMatches
  simp only [List.length_map]
  exact List.length_take_le 5 _

/-- C5 (amended): when a content query is supplied, a file is included in
the results exactly when its whole text contains the query
case-insensitively — so a query spanning a line break can produce a
result with an empty match list — and the attached matches are at most
five, each carrying a 1-indexed line number of a line that contains the
query case-insensitively together with that line's whitespace-trimmed,
200-character-truncated excerpt. -/
theorem claim5_amended_content_search (fs : FS) (cfg : Config)
    (pat : String) (dir : Option String) (cs : String) (k : Nat)
    (rs : List SearchResult)
    (h : search_files fs cfg pat dir (some cs) k = .ok rs) :
    ∀ r ∈ rs, ∃ content sz,
      nodeOf fs r.path = some (.file content sz) ∧
      containsCI cs content = true ∧
      ∃ ms, r.matchLines = some ms ∧ ms.length ≤ 5 ∧
        ∀ m ∈ ms, ∃ line,
          (pySplitlines content)[m.1 - 1]? = some line ∧ 1 ≤ m.1 ∧
          containsCI cs line = true ∧ m.2 = pyTake (pyStrip line) 200 := by
  intro r hr
  obtain ⟨q, hq⟩ := mem_search_files h hr
  obtain ⟨hpath, -, -, c, sz, hnode, hcs⟩ := processCandidate_spec hq
  obtain ⟨hci, hml⟩ := hcs cs rfl
  refine ⟨c, sz, by rw [hpath]; exact hnode, hci,
    collectMatches cs c, hml, collectMatches_length_le cs c,
    fun m hm => mem_collectMatches hm⟩

/-- Concrete run of the amended C5 (Scenario D): searching `*.txt` for
`hello` includes `a.txt` with the single match on line 1. -/
theorem claim5_witness :
    ∃ content sz,
      nodeOf fsA (SearchResult.path
        ⟨["tmp", "root", "a.txt"], "a.txt", ".txt", none,
         some [(1, "hello")]⟩) = some (.file content sz) ∧
      containsCI "hello" content = true ∧
      ∃ ms, SearchResult.matchLines
          (⟨["tmp", "root", "a.txt"], "a.txt", ".txt", none,
            some [(1, "hello")]⟩ : SearchResult) = some ms ∧
        ms.length ≤ 5 ∧
        ∀ m ∈ ms, ∃ line,
          (pySplitlines content)[m.1 - 1]? = some line ∧ 1 ≤ m.1 ∧
          containsCI "hello" line = true ∧
          m.2 = pyTake (pyStrip line) 200 :=
  claim5_amended_content_search fsA cfgA "*.txt" none "hello" 50
    [⟨["tmp", "root", "a.txt"], "a.txt", ".txt", none, some [(1, "hello")]⟩]
    (by decide) _ (by decide)

/-!
Claim C3.
-/

/-- Depth bound of the walker: entries produced with a given remaining
budget lie at most that much deeper than the scanned directory
(depths measured by the length of the path relative to the listing
root). -/
theorem scanGo_depth_bound (fs : FS) (cfg : Config) (recursive : Bool)
    (dirPath : FsPath) :
    ∀ (fuel : Nat) (path : FsPath), dirPath.length ≤ path.length →
      ∀ e ∈ scanGo fs cfg recursive dirPath fuel path,
        e.relativePath.length ≤ (path.length - dirPath.length) + fuel := by
  intro fuel
  induction fuel with
  | zero =>
      intro path _ e he
      simp [scanGo] at he
  | succ fuel ih =>
      intro path hlen e he
      simp only [scanGo] at he
      obtain ⟨n, _, he⟩ := List.mem_flatMap.mp he
      by_cases hig : should_ignore cfg (path ++ [n]) = true
      · simp [hig] at he
      · cases hnode : nodeOf fs (path ++ [n]) with
        | none => simp [hig, hnode] at he
        | some node =>
            cases node with
            | file c sz =>
                by_cases hsup : is_supported_file cfg (path ++ [n]) = true
                · simp [hig, hnode, hsup] at he
                  subst he
                  simp only [List.length_drop, List.length_append,
                    List.length_singleton]
                  omega
                · simp [hig, hnode, hsup] at he
            | dir =>
                by_cases hrec : recursive = true
                · subst hrec
                  simp [hig, hnode] at he
                  rcases he with rfl | he2
                  · simp only [List.length_drop, List.length_append,
                      List.length_singleton]
                    omega
                  · have := ih (path ++ [n])
                      (by simp only [List.length_append]; omega) e he2
                    simp only [List.length_append, List.length_singleton]
                      at this
                    omega
                · simp [hig, hnode, hrec] at he
                  subst he
                  simp only [List.length_drop, List.length_append,
                    List.length_singleton]
                  omega

/-- C3 counterexample: with `max_depth = 0` (so the claim would allow
only entries at depth 0, the directory itself), the listing still
returns the direct children, which sit at depth 1. -/
theorem claim3_counterexample :
    list_directory fsA cfgA "/tmp/root" true 0 =
      .ok [⟨"a.txt", ["tmp", "root", "a.txt"], ["a.txt"], .file, some 5,
            some ".txt", some "text/plain"⟩,
           ⟨"ignored", ["tmp", "root", "ignored"], ["ignored"], .dir,
            none, none, none⟩,
           ⟨"sub", ["tmp", "root", "sub"], ["sub"], .dir, none, none,
            none⟩] ∧
    ∃ e ∈ [(⟨"a.txt", ["tmp", "root", "a.txt"], ["a.txt"], .file, some 5,
            some ".txt", some "text/plain"⟩ : FsEntry),
           ⟨"ignored", ["tmp", "root", "ignored"], ["ignored"], .dir,
            none, none, none⟩,
           ⟨"sub", ["tmp", "root", "sub"], ["sub"], .dir, none, none,
            none⟩], ¬ (e.relativePath.length ≤ 0) :=
  ⟨by decide, by decide⟩

/-- C3 (amended): `list_directory(d, recursive, max_depth = N)` never
returns an entry whose depth below `d` exceeds `N + 1` (depth 0 being
`d` itself and direct children depth 1); the bound `N + 1` — not `N` —
is attained because the source checks `current_depth > max_depth`
before emitting the children of the current directory. -/
theorem claim3_amended_depth_bound (fs : FS) (cfg : Config) (d : String)
    (recursive : Bool) (N : Nat) (rs : List FsEntry)
    (h : list_directory fs cfg d recursive N = .ok rs) :
    ∀ e ∈ rs, e.relativePath.length ≤ N + 1 := by
  intro e he
  simp only [list_directory] at h
  split at h
  · exact absurd h (by simp)
  · split at h
    · exact absurd h (by simp)
    · split at h
      · exact absurd h (by simp)
      · obtain rfl := Except.ok.inj h
        have := scanGo_depth_bound fs cfg recursive
          (resolveUserPath fs d) (N + 1 - 0) (resolveUserPath fs d)
          (le_refl _) e (by simpa [scan_directory] using he)
        omega

/-- Concrete run of the amended C3: with `max_depth = 1` the deepest
fixture entry, `sub/b.txt`, sits at depth 2 = 1 + 1. -/
theorem claim3_witness :
    List.length (FsEntry.relativePath
        (⟨"b.txt", ["tmp", "root", "sub", "b.txt"], ["sub", "b.txt"],
          .file, some 5, some ".txt", some "text/plain"⟩ : FsEntry))
      ≤ 1 + 1 :=
  claim3_amended_depth_bound fsA cfgA "/tmp/root" true 1
    [⟨"a.txt", ["tmp", "root", "a.txt"], ["a.txt"], .file, some 5,
      some ".txt", some "text/plain"⟩,
     ⟨"ignored", ["tmp", "root", "ignored"], ["ignored"], .dir, none,
      none, none⟩,
     ⟨"sub", ["tmp", "root", "sub"], ["sub"], .dir, none, none, none⟩,
     ⟨"b.txt", ["tmp", "root", "sub", "b.txt"], ["sub", "b.txt"], .file,
      some 5, some ".txt", some "text/plain"⟩]
    (by decide) _ (by decide)

/-!
Claim C8.
-/

/-- C8: a recursive listing with `max_depth = 0` returns only direct
children of the directory: every entry's relative path is a single
component naming a child of the resolved directory. -/
theorem claim8_max_depth_zero_direct_children (fs : FS) (cfg : Config)
    (d : String) (rs : List FsEntry)
    (h : list_directory fs cfg d true 0 = .ok rs) :
    ∀ e ∈ rs, ∃ n, e.relativePath = [n] ∧
      e.path = resolveUserPath fs d ++ [n] := by
  intro e he
  simp only [list_directory] at h
  split at h
  · exact absurd h (by simp)
  · split at h
    · exact absurd h (by simp)
    · split at h
      · exact absurd h (by simp)
      · obtain rfl := Except.ok.inj h
        simp only [scan_directory, scanGo] at he
        obtain ⟨n, _, he⟩ := List.mem_flatMap.mp he
        refine ⟨n, ?_⟩
        by_cases hig :
            should_ignore cfg (resolveUserPath fs d ++ [n]) = true
        · simp [hig] at he
        · cases hnode : nodeOf fs (resolveUserPath fs d ++ [n]) with
          | none => simp [hig, hnode] at he
          | some node =>
              cases node with
              | file c sz =>
                  by_cases hsup : is_supported_file cfg
                      (resolveUserPath fs d ++ [n]) = true
                  · simp [hig, hnode, hsup] at he
                    subst he
                    simp [List.drop_left]
                  · simp [hig, hnode, hsup] at he
              | dir =>
                  simp [hig, hnode, scanGo] at he
                  subst he
                  simp [List.drop_left]

/-- Concrete run of C8 (Scenario E): in the depth-0 recursive listing of
the fixture the `sub` entry is a direct child of the resolved root. -/
theorem claim8_witness :
    ∃ n, FsEntry.relativePath
        (⟨"sub", ["tmp", "root", "sub"], ["sub"], .dir, none, none,
          none⟩ : FsEntry) = [n] ∧
      FsEntry.path
        (⟨"sub", ["tmp", "root", "sub"], ["sub"], .dir, none, none,
          none⟩ : FsEntry) = resolveUserPath fsA "/tmp/root" ++ [n] :=
  claim8_max_depth_zero_direct_children fsA cfgA "/tmp/root"
    [⟨"a.txt", ["tmp", "root", "a.txt"], ["a.txt"], .file, some 5,
      some ".txt", some "text/plain"⟩,
     ⟨"ignored", ["tmp", "root", "ignored"], ["ignored"], .dir, none,
      none, none⟩,
     ⟨"sub", ["tmp", "root", "sub"], ["sub"], .dir, none, none, none⟩]
    (by decide) _ (by decide)
